import Mathlib

/-!
Verification of the transaction-statistics program (checker.py).

Values are embedded as exact rationals; Python lists become Lean lists.
Python indexing that can raise IndexError is embedded in the Except monad;
indexing that is provably in range in every reachable call is embedded with
List.getD (the default is never read at the indices that occur).
-/

namespace EthStats

abbrev Value := ℚ

/-- Result dictionary built by stats_with_hash in checker.py. -/
structure StatsResult where
  count : Nat
  min : Value × String
  median : Value × List String
  max : Value × String
deriving DecidableEq

/-- Embedding of min(range(n), key=lambda i: values[i]) from stats_with_hash:
a left fold that replaces the current best index only on a strictly smaller
value, hence returns the first index achieving the minimum. -/
def argminIdx (values : List Value) : Nat :=
  (List.range values.length).foldl
    (fun best i => if values.getD i 0 < values.getD best 0 then i else best) 0

/-- Embedding of max(range(n), key=lambda i: values[i]) from stats_with_hash:
replaces the current best index only on a strictly larger value, hence returns
the first index achieving the maximum. -/
def argmaxIdx (values : List Value) : Nat :=
  (List.range values.length).foldl
    (fun best i => if values.getD best 0 < values.getD i 0 then i else best) 0

/-- Embedding of ord_idx = sorted(range(n), key=lambda i: values[i]) from
_median_with_indices. Python's sorted is a stable merge sort, embedded by
List.mergeSort, which is likewise stable. -/
def sortedIndices (values : List Value) : List Nat :=
  (List.range values.length).mergeSort
    (fun i j => decide (values.getD i 0 ≤ values.getD j 0))

/-- Lexicographic order on indices: by value first, ties by original position.
On the duplicate-free increasing list range n this is exactly what a stable
sort by value produces. -/
def idxLex (values : List Value) (i j : Nat) : Prop :=
  values.getD i 0 < values.getD j 0 ∨ (values.getD i 0 = values.getD j 0 ∧ i ≤ j)

instance (values : List Value) : DecidableRel (idxLex values) := fun i j => by
  unfold idxLex; exact inferInstance

/-- Spec-side stable sort of the index list: sort range n by value, breaking
ties by the original position. Stated from the specification's words
(stable sort by value, ties keep original relative order) for comparison
with sortedIndices, which is taken from the source. -/
def stableSortIndices (values : List Value) : List Nat :=
  (List.range values.length).insertionSort (idxLex values)

/-- Embedding of _median_with_indices from checker.py. -/
def median_with_indices (values : List Value) : Value × List Nat :=
  let n := values.length
  let ordIdx := sortedIndices values
  if n % 2 = 1 then
    let mid := ordIdx.getD (n / 2) 0
    (values.getD mid 0, [mid])
  else
    let lo := ordIdx.getD (n / 2 - 1) 0
    let hi := ordIdx.getD (n / 2) 0
    ((values.getD lo 0 + values.getD hi 0) / 2, [lo, hi])

/-- Python indexing hashes[i]: returns the element or raises IndexError. -/
def hashAt (hashes : List String) (i : Nat) : Except String String :=
  if h : i < hashes.length then .ok (hashes.get ⟨i, h⟩) else .error "IndexError"

/-- Python list comprehension over hashes at the given indices, left to
right, raising on the first out-of-range index. -/
def hashesAt (hashes : List String) : List Nat → Except String (List String)
  | [] => .ok []
  | i :: is => (hashAt hashes i).bind fun h => (hashesAt hashes is).map fun hs => h :: hs

/-- Embedding of stats_with_hash from checker.py. Returns ok none for an
empty series (Python None), an error value when an index into hashes is out
of range, and otherwise the statistics dictionary. -/
def stats_with_hash (values : List Value) (hashes : List String) :
    Except String (Option StatsResult) :=
  if values.isEmpty then .ok none
  else
    let n := values.length
    let minIdx := argminIdx values
    let maxIdx := argmaxIdx values
    let med := median_with_indices values
    (hashAt hashes minIdx).bind fun hmin =>
    (hashesAt hashes med.2).bind fun hmeds =>
    (hashAt hashes maxIdx).map fun hmax =>
      some { count := n
             min := (values.getD minIdx 0, hmin)
             median := (med.1, hmeds)
             max := (values.getD maxIdx 0, hmax) }

/-- Embedding of print_transactions_higher_than from checker.py: raises a
ValueError on mismatched lengths, otherwise prints each pair with value
above the threshold and the count of such pairs. -/
def print_transactions_higher_than (txs : List Value) (amount : Value)
    (hashes : List String) : Except String (List (Value × String) × Nat) :=
  if txs.length ≠ hashes.length then
    .error "txs and hashes must have the same length"
  else
    let printed := (txs.zip hashes).filter (fun p => amount < p.1)
    .ok (printed, printed.length)

/-! Fixed rates, token allow-list and record normalization from checker.py. -/

/-- FIXED_ETH_EUR_RATE from checker.py. -/
def FIXED_ETH_EUR_RATE : Value := 3659

/-- FIXED_USD_EUR_RATE from checker.py. -/
def FIXED_USD_EUR_RATE : Value := 85 / 100

/-- STABLE_TOKENS from checker.py: lowercased contract address to decimals. -/
def STABLE_TOKENS : List (String × Nat) :=
  [("0xa0b86991c6218b36c1d19d4a2e9eb0ce3606eb48", 6),
   ("0xdac17f958d2ee523a2206206994597c13d831ec7", 6)]

/-- eth_to_eur from checker.py. -/
def eth_to_eur (value_eth : Value) : Value := value_eth * FIXED_ETH_EUR_RATE

/-- usd_to_eur from checker.py. -/
def usd_to_eur (amount_usd : Value) : Value := amount_usd * FIXED_USD_EUR_RATE

/-- to_float_amount from checker.py: int(raw) / 10 ** decimals. -/
def to_float_amount (raw : Int) (decimals : Nat) : Value :=
  (raw : Value) / 10 ^ decimals

/-- wei_to_eth from checker.py. -/
def wei_to_eth (wei : Int) : Value := (wei : Value) / 10 ^ 18

/-- A raw token-transfer record as consumed by the token loop in main:
the integer parse of its value field, its contract address, and its hash. -/
structure TokenTx where
  value : Int
  contractAddress : String
  hash : String

/-- Embedding of the token-record loop body in main (checker.py): skip
zero-magnitude records, skip contracts absent from STABLE_TOKENS after
lowercasing, otherwise convert to EUR and pair with the record's hash. -/
def normalizeToken (t : TokenTx) : Option (Value × String) :=
  if t.value = 0 then none
  else
    match STABLE_TOKENS.lookup t.contractAddress.toLower with
    | none => none
    | some decimals => some (usd_to_eur (to_float_amount t.value decimals), t.hash)

/-! The paged fetcher _paged_get from checker.py. The data source is given
as the list of responses it would return to pages 1, 2, 3, ... in order. -/

/-- One JSON response from the data source. -/
structure Response (α : Type) where
  status : String
  message : String
  result : List α
deriving DecidableEq

/-- Payload of the RuntimeError raised by _paged_get: the reported message
and the raw result of the offending response. -/
structure FetchError (α : Type) where
  message : String
  raw : List α
deriving DecidableEq

/-- Outcome of a walk: success or error, each tagged with the number of page
requests issued; outOfResponses means the walker would request a page past
the supplied response list. -/
inductive WalkOutcome (α : Type) where
  | ok (records : List α) (requests : Nat)
  | err (e : FetchError α) (requests : Nat)
  | outOfResponses
deriving DecidableEq

/-- Embedding of _paged_get from checker.py. The walker consumes responses
for pages 1, 2, ... in order: it raises on a status "0" response whose
message is not the no-records sentinel, stops on an empty result, appends
the page's records and stops when the page is shorter than pageSize,
otherwise requests the next page. -/
def paged_get (pageSize : Nat) : List (Response α) → WalkOutcome α
  | [] => .outOfResponses
  | r :: rest =>
    if r.status = "0" ∧ r.message ≠ "No transactions found" then
      .err ⟨r.message, r.result⟩ 1
    else if r.result.isEmpty then
      .ok [] 1
    else if r.result.length < pageSize then
      .ok r.result 1
    else
      match paged_get pageSize rest with
      | .ok recs k => .ok (r.result ++ recs) (k + 1)
      | .err e k => .err e (k + 1)
      | .outOfResponses => .outOfResponses

/-! The unified view built in main (checker.py). -/

/-- Embedding of the unified accumulation in main: start from empty lists,
append the ETH series (values and hashes) when the ETH value list is
nonempty, then append the token series when the token value list is
nonempty. -/
def unifiedSeries (ethVals : List Value) (ethHashes : List String)
    (tokVals : List Value) (tokHashes : List String) :
    List Value × List String :=
  let s0 : List Value × List String := ([], [])
  let s1 := if ethVals.isEmpty then s0 else (s0.1 ++ ethVals, s0.2 ++ ethHashes)
  if tokVals.isEmpty then s1 else (s1.1 ++ tokVals, s1.2 ++ tokHashes)

/-- The additional statistics result computed over the unified series. -/
def unifiedStats (ethVals : List Value) (ethHashes : List String)
    (tokVals : List Value) (tokHashes : List String) :
    Except String (Option StatsResult) :=
  let u := unifiedSeries ethVals ethHashes tokVals tokHashes
  stats_with_hash u.1 u.2

/-! Properties of the index sort used by the median. -/

instance (values : List Value) : IsTrans Nat (idxLex values) := by
  constructor
  intro a b c hab hbc
  rcases hab with h1 | ⟨e1, l1⟩ <;> rcases hbc with h2 | ⟨e2, l2⟩
  · exact Or.inl (h1.trans h2)
  · exact Or.inl (lt_of_lt_of_eq h1 e2)
  · exact Or.inl (lt_of_eq_of_lt e1 h2)
  · exact Or.inr ⟨e1.trans e2, l1.trans l2⟩

instance (values : List Value) : IsTotal Nat (idxLex values) := by
  constructor
  intro a b
  rcases lt_trichotomy (values.getD a 0) (values.getD b 0) with h | h | h
  · exact Or.inl (Or.inl h)
  · rcases Nat.le_total a b with hab | hab
    · exact Or.inl (Or.inr ⟨h, hab⟩)
    · exact Or.inr (Or.inr ⟨h.symm, hab⟩)
  · exact Or.inr (Or.inl h)

instance (values : List Value) : IsAntisymm Nat (idxLex values) := by
  constructor
  intro a b hab hba
  rcases hab with h1 | ⟨e1, l1⟩ <;> rcases hba with h2 | ⟨e2, l2⟩
  · exact absurd h2 (lt_asymm h1)
  · exact absurd e2 (ne_of_gt h1)
  · exact absurd e1 (ne_of_gt h2)
  · exact Nat.le_antisymm l1 l2

/-- A strictly increasing pair below n is a sublist of range n. -/
lemma pair_sublist_range {j i n : Nat} (hji : j < i) (hin : i < n) :
    List.Sublist [j, i] (List.range n) := by
  induction n with
  | zero => omega
  | succ m ih =>
    rw [List.range_succ]
    rcases Nat.lt_succ_iff_lt_or_eq.mp hin with h | h
    · exact (ih h).trans (List.sublist_append_left _ _)
    · subst h
      have hj : List.Sublist [j] (List.range i) := List.singleton_sublist.mpr (List.mem_range.mpr hji)
      exact hj.append (List.Sublist.refl [i])

/-- In a duplicate-free list, a pair cannot occur in both orders. -/
lemma nodup_pair_sublist {l : List Nat} (h : l.Nodup) {a b : Nat}
    (hab : List.Sublist [a, b] l) (hba : List.Sublist [b, a] l) : a = b := by
  induction l with
  | nil => cases hab
  | cons x t ih =>
    have hx : x ∉ t := (List.nodup_cons.mp h).1
    have ht : t.Nodup := (List.nodup_cons.mp h).2
    cases hab with
    | cons _ h1 =>
      cases hba with
      | cons _ h2 => exact ih ht h1 h2
      | cons₂ _ h2 =>
        exact absurd (h1.subset (by simp)) hx
    | cons₂ _ h1 =>
      cases hba with
      | cons _ h2 =>
        exact absurd (h2.subset (by simp)) hx
      | cons₂ _ h2 => rfl

lemma sortedIndices_perm (values : List Value) :
    List.Perm (sortedIndices values) (List.range values.length) :=
  List.mergeSort_perm _ _

lemma sortedIndices_length (values : List Value) :
    (sortedIndices values).length = values.length := by
  simpa using (sortedIndices_perm values).length_eq

lemma sortedIndices_lt_of_mem {values : List Value} {i : Nat}
    (h : i ∈ sortedIndices values) : i < values.length := by
  have := (sortedIndices_perm values).subset h
  simpa [List.mem_range] using this

lemma sortedIndices_nodup (values : List Value) : (sortedIndices values).Nodup :=
  (sortedIndices_perm values).nodup_iff.mpr (List.nodup_range _)

lemma le_trans_bool (values : List Value) :
    ∀ a b c : Nat, decide (values.getD a 0 ≤ values.getD b 0) →
      decide (values.getD b 0 ≤ values.getD c 0) →
      decide (values.getD a 0 ≤ values.getD c 0) := by
  intro a b c hab hbc
  simp only [decide_eq_true_eq] at *
  exact hab.trans hbc

lemma le_total_bool (values : List Value) :
    ∀ a b : Nat, decide (values.getD a 0 ≤ values.getD b 0) ||
      decide (values.getD b 0 ≤ values.getD a 0) := by
  intro a b
  simpa using le_total _ _

/-- The index sort is sorted by value. -/
lemma sortedIndices_pairwise_le (values : List Value) :
    (sortedIndices values).Pairwise
      (fun i j => values.getD i 0 ≤ values.getD j 0) := by
  have h := List.sorted_mergeSort (le_trans_bool values) (le_total_bool values)
    (List.range values.length)
  exact h.imp (by intro a b hab; simpa using hab)

/-- Stability: the index sort is sorted by value with ties in increasing
original position, that is, sorted for the lexicographic order idxLex. -/
lemma sortedIndices_pairwise_lex (values : List Value) :
    (sortedIndices values).Pairwise (idxLex values) := by
  rw [List.pairwise_iff_forall_sublist]
  intro i j hsub
  have hle : values.getD i 0 ≤ values.getD j 0 :=
    List.pairwise_iff_forall_sublist.mp (sortedIndices_pairwise_le values) hsub
  rcases lt_or_eq_of_le hle with hlt | heq
  · exact Or.inl hlt
  · refine Or.inr ⟨heq, ?_⟩
    by_contra hj
    push_neg at hj
    have hiS : i ∈ sortedIndices values := hsub.subset (by simp)
    have hin : i < values.length := sortedIndices_lt_of_mem hiS
    have hrange : List.Sublist [j, i] (List.range values.length) := pair_sublist_range hj hin
    have hji : List.Sublist [j, i] (sortedIndices values) :=
      List.pair_sublist_mergeSort (le_trans_bool values) (le_total_bool values)
        (by simp only [decide_eq_true_eq]; exact heq.ge) hrange
    have : i = j := nodup_pair_sublist (sortedIndices_nodup values) hsub hji
    omega

/-- The stable sort by value computed by the source equals the spec-side
sort by the lexicographic order (value, original position). -/
lemma sortedIndices_eq_stable (values : List Value) :
    sortedIndices values = stableSortIndices values := by
  refine List.eq_of_perm_of_sorted (r := idxLex values)
    ((sortedIndices_perm values).trans (List.perm_insertionSort _ _).symm)
    (sortedIndices_pairwise_lex values)
    (List.sorted_insertionSort _ _)

/-! Generic facts about List.getD at in-range indices. -/

lemma getD_eq_getElem {α : Type} (l : List α) (i : Nat) (d : α)
    (h : i < l.length) : l.getD i d = l[i] := by
  simp [List.getD_eq_getElem?_getD, List.getElem?_eq_getElem h]

lemma getD_mem {α : Type} {l : List α} {i : Nat} (d : α) (h : i < l.length) :
    l.getD i d ∈ l := by
  rw [getD_eq_getElem l i d h]
  exact List.getElem_mem h

lemma pairwise_getD {α : Type} {R : α → α → Prop} {l : List α}
    (h : l.Pairwise R) {p q : Nat} (hpq : p < q) (hq : q < l.length) (d : α) :
    R (l.getD p d) (l.getD q d) := by
  have hp : p < l.length := hpq.trans hq
  rw [getD_eq_getElem _ _ _ hp, getD_eq_getElem _ _ _ hq]
  have := List.pairwise_iff_get.mp h ⟨p, hp⟩ ⟨q, hq⟩ hpq
  simpa using this

lemma nodup_getD_ne {α : Type} {l : List α} (h : l.Nodup) {p q : Nat}
    (hp : p < l.length) (hq : q < l.length) (hne : p ≠ q) (d : α) :
    l.getD p d ≠ l.getD q d := by
  rw [getD_eq_getElem _ _ _ hp, getD_eq_getElem _ _ _ hq]
  intro he
  exact hne (h.getElem_inj_iff.mp he)

/-! The first-occurrence argmin and argmax scans. -/

/-- The fold underlying argminIdx, over an abstract value function. -/
def argminFold (v : Nat → Value) (n : Nat) : Nat :=
  (List.range n).foldl (fun best i => if v i < v best then i else best) 0

/-- The fold underlying argmaxIdx, over an abstract value function. -/
def argmaxFold (v : Nat → Value) (n : Nat) : Nat :=
  (List.range n).foldl (fun best i => if v best < v i then i else best) 0

lemma argminIdx_eq_fold (values : List Value) :
    argminIdx values = argminFold (fun i => values.getD i 0) values.length := rfl

lemma argmaxIdx_eq_fold (values : List Value) :
    argmaxIdx values = argmaxFold (fun i => values.getD i 0) values.length := rfl

/-- The min scan returns an in-range index achieving the minimum, and is the
first such index: every earlier index holds a strictly larger value. -/
lemma argminFold_spec (v : Nat → Value) (n : Nat) (hn : 0 < n) :
    argminFold v n < n ∧ (∀ i, i < n → v (argminFold v n) ≤ v i) ∧
      (∀ j, j < argminFold v n → v (argminFold v n) < v j) := by
  induction n with
  | zero => omega
  | succ m ih =>
    have hstep : argminFold v (m + 1) =
        if v m < v (argminFold v m) then m else argminFold v m := by
      simp [argminFold, List.range_succ]
    rcases Nat.eq_zero_or_pos m with hm | hm
    · subst hm
      have h0 : argminFold v 1 = 0 := by
        rw [hstep]
        simp [argminFold]
      rw [h0]
      refine ⟨by omega, ?_, by omega⟩
      intro i hi
      have : i = 0 := by omega
      subst this
      exact le_rfl
    · obtain ⟨ha, hmin, hfirst⟩ := ih hm
      rw [hstep]
      by_cases hc : v m < v (argminFold v m)
      · rw [if_pos hc]
        refine ⟨by omega, ?_, ?_⟩
        · intro i hi
          rcases Nat.lt_succ_iff_lt_or_eq.mp hi with h | h
          · exact le_of_lt (lt_of_lt_of_le hc (hmin i h))
          · subst h; exact le_rfl
        · intro j hj
          exact lt_of_lt_of_le hc (hmin j hj)
      · rw [if_neg hc]
        push_neg at hc
        refine ⟨by omega, ?_, hfirst⟩
        intro i hi
        rcases Nat.lt_succ_iff_lt_or_eq.mp hi with h | h
        · exact hmin i h
        · subst h; exact hc

/-- The max scan returns an in-range index achieving the maximum, and is the
first such index: every earlier index holds a strictly smaller value. -/
lemma argmaxFold_spec (v : Nat → Value) (n : Nat) (hn : 0 < n) :
    argmaxFold v n < n ∧ (∀ i, i < n → v i ≤ v (argmaxFold v n)) ∧
      (∀ j, j < argmaxFold v n → v j < v (argmaxFold v n)) := by
  induction n with
  | zero => omega
  | succ m ih =>
    have hstep : argmaxFold v (m + 1) =
        if v (argmaxFold v m) < v m then m else argmaxFold v m := by
      simp [argmaxFold, List.range_succ]
    rcases Nat.eq_zero_or_pos m with hm | hm
    · subst hm
      have h0 : argmaxFold v 1 = 0 := by
        rw [hstep]
        simp [argmaxFold]
      rw [h0]
      refine ⟨by omega, ?_, by omega⟩
      intro i hi
      have : i = 0 := by omega
      subst this
      exact le_rfl
    · obtain ⟨ha, hmax, hfirst⟩ := ih hm
      rw [hstep]
      by_cases hc : v (argmaxFold v m) < v m
      · rw [if_pos hc]
        refine ⟨by omega, ?_, ?_⟩
        · intro i hi
          rcases Nat.lt_succ_iff_lt_or_eq.mp hi with h | h
          · exact le_of_lt (lt_of_le_of_lt (hmax i h) hc)
          · subst h; exact le_rfl
        · intro j hj
          exact lt_of_le_of_lt (hmax j hj) hc
      · rw [if_neg hc]
        push_neg at hc
        refine ⟨by omega, ?_, hfirst⟩
        intro i hi
        rcases Nat.lt_succ_iff_lt_or_eq.mp hi with h | h
        · exact hmax i h
        · subst h; exact hc

lemma argminIdx_spec (values : List Value) (hne : values ≠ []) :
    argminIdx values < values.length ∧
    (∀ i, i < values.length →
      values.getD (argminIdx values) 0 ≤ values.getD i 0) ∧
    (∀ j, j < argminIdx values →
      values.getD (argminIdx values) 0 < values.getD j 0) := by
  rw [argminIdx_eq_fold]
  exact argminFold_spec _ _ (List.length_pos.mpr hne)

lemma argmaxIdx_spec (values : List Value) (hne : values ≠ []) :
    argmaxIdx values < values.length ∧
    (∀ i, i < values.length →
      values.getD i 0 ≤ values.getD (argmaxIdx values) 0) ∧
    (∀ j, j < argmaxIdx values →
      values.getD j 0 < values.getD (argmaxIdx values) 0) := by
  rw [argmaxIdx_eq_fold]
  exact argmaxFold_spec _ _ (List.length_pos.mpr hne)

/-! Shape of the median in the two parity cases. -/

lemma median_odd_eq (values : List Value) (h : values.length % 2 = 1) :
    median_with_indices values =
      (values.getD ((sortedIndices values).getD (values.length / 2) 0) 0,
       [(sortedIndices values).getD (values.length / 2) 0]) := by
  simp only [median_with_indices]
  rw [if_pos h]

lemma median_even_eq (values : List Value) (h : values.length % 2 = 0) :
    median_with_indices values =
      ((values.getD ((sortedIndices values).getD (values.length / 2 - 1) 0) 0 +
        values.getD ((sortedIndices values).getD (values.length / 2) 0) 0) / 2,
       [(sortedIndices values).getD (values.length / 2 - 1) 0,
        (sortedIndices values).getD (values.length / 2) 0]) := by
  simp only [median_with_indices]
  rw [if_neg (by omega)]

lemma sortedIndices_getD_lt (values : List Value) {p : Nat}
    (hp : p < values.length) : (sortedIndices values).getD p 0 < values.length := by
  apply sortedIndices_lt_of_mem
  apply getD_mem
  rw [sortedIndices_length]
  exact hp

/-- Every index the median uses is a valid position of the input series. -/
lemma median_indices_lt (values : List Value) (hne : values ≠ []) :
    ∀ i ∈ (median_with_indices values).2, i < values.length := by
  have hlen : 0 < values.length := List.length_pos.mpr hne
  by_cases hp : values.length % 2 = 1
  · rw [median_odd_eq values hp]
    intro i hi
    simp only [List.mem_singleton] at hi
    subst hi
    exact sortedIndices_getD_lt values (by omega)
  · have hp0 : values.length % 2 = 0 := by omega
    rw [median_even_eq values hp0]
    intro i hi
    simp only [List.mem_cons, List.mem_singleton, List.not_mem_nil, or_false] at hi
    rcases hi with rfl | rfl
    · exact sortedIndices_getD_lt values (by omega)
    · exact sortedIndices_getD_lt values (by omega)

/-- The median value lies between the reported min and max values. -/
lemma median_value_between (values : List Value) (hne : values ≠ []) :
    values.getD (argminIdx values) 0 ≤ (median_with_indices values).1 ∧
    (median_with_indices values).1 ≤ values.getD (argmaxIdx values) 0 := by
  have hlen : 0 < values.length := List.length_pos.mpr hne
  obtain ⟨-, hminle, -⟩ := argminIdx_spec values hne
  obtain ⟨-, hmaxle, -⟩ := argmaxIdx_spec values hne
  by_cases hp : values.length % 2 = 1
  · rw [median_odd_eq values hp]
    have hmid := sortedIndices_getD_lt values
      (show values.length / 2 < values.length by omega)
    exact ⟨hminle _ hmid, hmaxle _ hmid⟩
  · have hp0 : values.length % 2 = 0 := by omega
    rw [median_even_eq values hp0]
    have h1 := sortedIndices_getD_lt values
      (show values.length / 2 - 1 < values.length by omega)
    have h2 := sortedIndices_getD_lt values
      (show values.length / 2 < values.length by omega)
    constructor
    · have a1 := hminle _ h1
      have a2 := hminle _ h2
      dsimp only
      linarith
    · have a1 := hmaxle _ h1
      have a2 := hmaxle _ h2
      dsimp only
      linarith

/-- In the even case the two median indices are distinct valid positions and
the value at the first is at most the value at the second. -/
lemma median_even_parts (values : List Value) (hne : values ≠ [])
    (h : values.length % 2 = 0) :
    ∃ lo hi : Nat, (median_with_indices values).2 = [lo, hi] ∧
      lo < values.length ∧ hi < values.length ∧ lo ≠ hi ∧
      values.getD lo 0 ≤ values.getD hi 0 := by
  have hlen : 0 < values.length := List.length_pos.mpr hne
  refine ⟨(sortedIndices values).getD (values.length / 2 - 1) 0,
          (sortedIndices values).getD (values.length / 2) 0, ?_, ?_, ?_, ?_, ?_⟩
  · rw [median_even_eq values h]
  · exact sortedIndices_getD_lt values (by omega)
  · exact sortedIndices_getD_lt values (by omega)
  · apply nodup_getD_ne (sortedIndices_nodup values)
    · rw [sortedIndices_length]; omega
    · rw [sortedIndices_length]; omega
    · omega
  · exact pairwise_getD (sortedIndices_pairwise_le values)
      (show values.length / 2 - 1 < values.length / 2 by omega)
      (by rw [sortedIndices_length]; omega) 0

/-! Successful evaluation of stats_with_hash. -/

lemma hashAt_ok (hashes : List String) (i : Nat) (h : i < hashes.length) :
    hashAt hashes i = .ok (hashes.getD i "") := by
  rw [hashAt, dif_pos h, getD_eq_getElem _ _ _ h]
  rfl

lemma hashesAt_ok (hashes : List String) (is : List Nat)
    (h : ∀ i ∈ is, i < hashes.length) :
    hashesAt hashes is = .ok (is.map (fun i => hashes.getD i "")) := by
  induction is with
  | nil => rfl
  | cons a as ih =>
    rw [hashesAt, hashAt_ok _ _ (h a (by simp)), ih (fun i hi => h i (by simp [hi]))]
    rfl

/-- Master evaluation lemma: on a nonempty value series whose hash series is
at least as long, stats_with_hash succeeds and returns the record built from
the first-occurrence min and max scans and the stable-sort median. -/
lemma stats_ok (values : List Value) (hashes : List String) (hne : values ≠ [])
    (hlen : values.length ≤ hashes.length) :
    stats_with_hash values hashes = .ok (some
      { count := values.length
        min := (values.getD (argminIdx values) 0,
                hashes.getD (argminIdx values) "")
        median := ((median_with_indices values).1,
          (median_with_indices values).2.map (fun i => hashes.getD i ""))
        max := (values.getD (argmaxIdx values) 0,
                hashes.getD (argmaxIdx values) "") }) := by
  have hE : values.isEmpty = false := by
    simpa [List.isEmpty_iff] using hne
  obtain ⟨hminlt, -, -⟩ := argminIdx_spec values hne
  obtain ⟨hmaxlt, -, -⟩ := argmaxIdx_spec values hne
  rw [stats_with_hash]
  rw [hE]
  simp only [Bool.false_eq_true, if_false]
  rw [hashAt_ok _ _ (lt_of_lt_of_le hminlt hlen),
      hashesAt_ok _ _ (fun i hi => lt_of_lt_of_le (median_indices_lt values hne i hi) hlen),
      hashAt_ok _ _ (lt_of_lt_of_le hmaxlt hlen)]
  rfl

/-! Behaviour of the page walker. -/

/-- The error condition _paged_get checks on each response. -/
def respFails {α : Type} (r : Response α) : Prop :=
  r.status = "0" ∧ r.message ≠ "No transactions found"

instance {α : Type} (r : Response α) : Decidable (respFails r) := by
  unfold respFails; exact inferInstance

lemma paged_get_err_pos {α : Type} (pageSize : Nat) (resps : List (Response α))
    (e : FetchError α) (k : Nat) (h : paged_get pageSize resps = .err e k) :
    0 < k := by
  cases resps with
  | nil => simp [paged_get] at h
  | cons r rest =>
    rw [paged_get] at h
    by_cases h1 : r.status = "0" ∧ r.message ≠ "No transactions found"
    · rw [if_pos h1] at h
      simp only [WalkOutcome.err.injEq] at h
      omega
    · rw [if_neg h1] at h
      by_cases h2 : r.result.isEmpty
      · rw [if_pos h2] at h
        cases h
      · rw [if_neg h2] at h
        by_cases h3 : r.result.length < pageSize
        · rw [if_pos h3] at h
          cases h
        · rw [if_neg h3] at h
          cases hrec : paged_get pageSize rest with
          | ok recs' k' => rw [hrec] at h; cases h
          | err e' k' =>
            rw [hrec] at h
            simp only [WalkOutcome.err.injEq] at h
            omega
          | outOfResponses => rw [hrec] at h; cases h

/-- C3: every successful walk starts at page 1 and consumes an initial
segment of the response sequence: the responses split as pre ++ last :: rest
where every page in pre was full (at least pageSize records, nonempty, no
error status), last is the page that triggered the stop (empty or strictly
shorter than pageSize), exactly pre.length + 1 requests were issued (so no
request beyond the stopping page), and the returned records are the
concatenation of the returned pages in request order. -/
theorem paged_get_ok_decomp {α : Type} (pageSize : Nat)
    (resps : List (Response α)) (recs : List α) (k : Nat)
    (h : paged_get pageSize resps = .ok recs k) :
    ∃ pre last rest, resps = pre ++ last :: rest ∧
      k = pre.length + 1 ∧
      recs = (pre.map Response.result).flatten ++ last.result ∧
      (∀ p ∈ pre, ¬respFails p ∧ p.result ≠ [] ∧ pageSize ≤ p.result.length) ∧
      ¬respFails last ∧
      (last.result = [] ∨ last.result.length < pageSize) := by
  induction resps generalizing recs k with
  | nil => simp [paged_get] at h
  | cons r rest ih =>
    rw [paged_get] at h
    by_cases h1 : r.status = "0" ∧ r.message ≠ "No transactions found"
    · rw [if_pos h1] at h
      cases h
    · rw [if_neg h1] at h
      by_cases h2 : r.result.isEmpty
      · rw [if_pos h2] at h
        simp only [WalkOutcome.ok.injEq] at h
        obtain ⟨rfl, rfl⟩ := h
        refine ⟨[], r, rest, by simp, by simp, ?_, by simp, h1,
          Or.inl (List.isEmpty_iff.mp h2)⟩
        simp [List.isEmpty_iff.mp h2]
      · rw [if_neg h2] at h
        by_cases h3 : r.result.length < pageSize
        · rw [if_pos h3] at h
          simp only [WalkOutcome.ok.injEq] at h
          obtain ⟨rfl, rfl⟩ := h
          exact ⟨[], r, rest, by simp, by simp, by simp, by simp, h1, Or.inr h3⟩
        · rw [if_neg h3] at h
          cases hrec : paged_get pageSize rest with
          | ok recs' k' =>
            rw [hrec] at h
            simp only [WalkOutcome.ok.injEq] at h
            obtain ⟨rfl, rfl⟩ := h
            obtain ⟨pre', last', rest', hre, hk, hrecs, hpre, hlast, hstop⟩ :=
              ih recs' k' hrec
            refine ⟨r :: pre', last', rest', ?_, ?_, ?_, ?_, hlast, hstop⟩
            · simp [hre]
            · simp [hk]
            · simp [hrecs, List.append_assoc]
            · intro p hp
              rcases List.mem_cons.mp hp with rfl | hp2
              · exact ⟨h1, fun hnil => h2 (by simp [hnil]), le_of_not_lt h3⟩
              · exact hpre p hp2
          | err e' k' => rw [hrec] at h; cases h
          | outOfResponses => rw [hrec] at h; cases h

/-! Claim theorems. -/

/-- C4 counterexample: a status "0" response carrying the exact no-records
sentinel message but a nonempty result list is not treated as an empty page
and does not terminate the walk: with page size 1 the walker consumes its
record, requests the next page and fails there, issuing 2 requests. -/
theorem sentinel_nonempty_page_not_treated_empty :
    paged_get 1 [(⟨"0", "No transactions found", [7]⟩ : Response Nat),
                 ⟨"0", "NOTOK", [9]⟩] = .err ⟨"NOTOK", [9]⟩ 2 ∧
    (⟨"0", "No transactions found", [7]⟩ : Response Nat).status = "0" ∧
    (⟨"0", "No transactions found", [7]⟩ : Response Nat).message =
      "No transactions found" := by
  exact ⟨by decide, rfl, rfl⟩

/-- C4 (amended): processing a response, the walker raises a fetch error
carrying that response's message and raw result exactly when the status is
"0" and the message differs from the no-records sentinel; a status "0"
response whose message equals the sentinel and whose result is empty is a
valid empty page that ends the walk without error after this one request. -/
theorem paged_get_first_response {α : Type} (pageSize : Nat) (r : Response α)
    (rest : List (Response α)) :
    (paged_get pageSize (r :: rest) = .err ⟨r.message, r.result⟩ 1 ↔
      (r.status = "0" ∧ r.message ≠ "No transactions found")) ∧
    (r.status = "0" → r.message = "No transactions found" → r.result = [] →
      paged_get pageSize (r :: rest) = .ok [] 1) := by
  constructor
  · constructor
    · intro h
      by_contra h1
      rw [paged_get, if_neg h1] at h
      by_cases h2 : r.result.isEmpty
      · rw [if_pos h2] at h
        cases h
      · rw [if_neg h2] at h
        by_cases h3 : r.result.length < pageSize
        · rw [if_pos h3] at h
          cases h
        · rw [if_neg h3] at h
          cases hrec : paged_get pageSize rest with
          | ok recs' k' => rw [hrec] at h; cases h
          | err e' k' =>
            rw [hrec] at h
            simp only [WalkOutcome.err.injEq] at h
            have := paged_get_err_pos pageSize rest e' k' hrec
            omega
          | outOfResponses => rw [hrec] at h; cases h
    · intro h1
      rw [paged_get, if_pos h1]
  · intro hs hm hres
    rw [paged_get, if_neg (by simp [hm]), if_pos (by simp [hres])]

/-- C5 counterexample: on the mismatched-length input [1, 2] versus
["a", "b", "c"] the engine does not fail: it returns a full result computed
from the mismatched inputs. -/
theorem stats_no_length_validation :
    ([1, 2] : List Value).length ≠ ["a", "b", "c"].length ∧
    stats_with_hash [1, 2] ["a", "b", "c"] =
      .ok (some ⟨2, (1, "a"), (3 / 2, ["a", "b"]), (2, "b")⟩) := by
  constructor
  · decide
  · rw [stats_ok [1, 2] ["a", "b", "c"] (by decide) (by decide)]
    have hmin : argminIdx [1, 2] = 0 := by decide
    have hmax : argmaxIdx [1, 2] = 1 := by decide
    have hmed : median_with_indices [1, 2] = (3 / 2, [0, 1]) := by
      rw [median_even_eq _ (by decide)]
      rw [sortedIndices_eq_stable]
      have hs : stableSortIndices [1, 2] = [0, 1] := by decide
      rw [hs]
      norm_num [List.getD]
    rw [hmin, hmax, hmed]
    norm_num [List.getD]

/-- C5 (amended): the mismatched-length validation lives in
print_transactions_higher_than, which raises a ValueError; the statistics
engine stats_with_hash performs no such validation and, whenever the
provenance series is at least as long as the value series, returns a result
computed from the possibly mismatched inputs. -/
theorem length_validation_located :
    (∀ (txs : List Value) (amount : Value) (hashes : List String),
       txs.length ≠ hashes.length →
       print_transactions_higher_than txs amount hashes =
         .error "txs and hashes must have the same length") ∧
    (∀ (values : List Value) (hashes : List String), values ≠ [] →
       values.length ≤ hashes.length →
       ∃ r, stats_with_hash values hashes = .ok (some r)) := by
  constructor
  · intro txs amount hashes hm
    rw [print_transactions_higher_than, if_pos hm]
  · intro values hashes hne hle
    exact ⟨_, stats_ok values hashes hne hle⟩

/-- C7: token normalization yields zero or one normalized amount per raw
record: zero-magnitude records and records whose lowercased contract id is
absent from the allow-list give none (a silent skip), and every other record
gives magnitude over ten to the decimals, converted by the fixed
stable-to-EUR rate, paired with the record's hash. -/
theorem token_normalization (t : TokenTx) :
    (t.value = 0 → normalizeToken t = none) ∧
    (STABLE_TOKENS.lookup t.contractAddress.toLower = none →
      normalizeToken t = none) ∧
    (∀ d : Nat, t.value ≠ 0 →
      STABLE_TOKENS.lookup t.contractAddress.toLower = some d →
      normalizeToken t =
        some (((t.value : Value) / 10 ^ d) * FIXED_USD_EUR_RATE, t.hash)) := by
  refine ⟨?_, ?_, ?_⟩
  · intro h
    rw [normalizeToken, if_pos h]
  · intro h
    rw [normalizeToken]
    by_cases hz : t.value = 0
    · rw [if_pos hz]
    · rw [if_neg hz, h]
  · intro d hz hl
    rw [normalizeToken, if_neg hz, hl]
    rfl

/-- C1: for every non-empty value series with a provenance series of equal
length, the engine's median follows the stable sort by value (ties keep
original relative order, captured by the lexicographic value-then-position
sort stableSortIndices): odd length gives the single middle element's value
and id, even length gives the mean of the two middle elements' values and
both ids, lower sorted index first. -/
theorem median_follows_stable_sort (values : List Value) (hashes : List String)
    (hne : values ≠ []) (hlen : hashes.length = values.length) :
    ∃ r, stats_with_hash values hashes = .ok (some r) ∧
      (values.length % 2 = 1 →
        r.median =
          (values.getD ((stableSortIndices values).getD (values.length / 2) 0) 0,
           [hashes.getD ((stableSortIndices values).getD (values.length / 2) 0) ""])) ∧
      (values.length % 2 = 0 →
        r.median =
          ((values.getD ((stableSortIndices values).getD (values.length / 2 - 1) 0) 0 +
            values.getD ((stableSortIndices values).getD (values.length / 2) 0) 0) / 2,
           [hashes.getD ((stableSortIndices values).getD (values.length / 2 - 1) 0) "",
            hashes.getD ((stableSortIndices values).getD (values.length / 2) 0) ""])) := by
  refine ⟨_, stats_ok values hashes hne hlen.ge, ?_, ?_⟩
  · intro hodd
    show ((median_with_indices values).1,
      (median_with_indices values).2.map (fun i => hashes.getD i "")) = _
    rw [median_odd_eq values hodd, sortedIndices_eq_stable]
    simp
  · intro heven
    show ((median_with_indices values).1,
      (median_with_indices values).2.map (fun i => hashes.getD i "")) = _
    rw [median_even_eq values heven, sortedIndices_eq_stable]
    simp

/-- C2: the min statistic is the value and id of the first index achieving
the smallest value, the max statistic is the value and id of the first index
achieving the largest value, and on an all-equal series both report the
first element's id. -/
theorem min_max_first_occurrence (values : List Value) (hashes : List String)
    (hne : values ≠ []) (hlen : hashes.length = values.length) :
    ∃ r, stats_with_hash values hashes = .ok (some r) ∧
      (∃ i, i < values.length ∧
        r.min = (values.getD i 0, hashes.getD i "") ∧
        (∀ j, j < values.length → values.getD i 0 ≤ values.getD j 0) ∧
        (∀ j, j < i → values.getD i 0 < values.getD j 0)) ∧
      (∃ i, i < values.length ∧
        r.max = (values.getD i 0, hashes.getD i "") ∧
        (∀ j, j < values.length → values.getD j 0 ≤ values.getD i 0) ∧
        (∀ j, j < i → values.getD j 0 < values.getD i 0)) ∧
      ((∀ j, j < values.length → values.getD j 0 = values.getD 0 0) →
        r.min.2 = hashes.getD 0 "" ∧ r.max.2 = hashes.getD 0 "") := by
  obtain ⟨hminlt, hminle, hminfirst⟩ := argminIdx_spec values hne
  obtain ⟨hmaxlt, hmaxle, hmaxfirst⟩ := argmaxIdx_spec values hne
  refine ⟨_, stats_ok values hashes hne hlen.ge, ?_, ?_, ?_⟩
  · exact ⟨argminIdx values, hminlt, rfl, hminle, hminfirst⟩
  · exact ⟨argmaxIdx values, hmaxlt, rfl, hmaxle, hmaxfirst⟩
  · intro hall
    have hmin0 : argminIdx values = 0 := by
      by_contra hne0
      have h0 : 0 < argminIdx values := Nat.pos_of_ne_zero hne0
      have hlt := hminfirst 0 h0
      rw [hall (argminIdx values) hminlt] at hlt
      exact lt_irrefl _ hlt
    have hmax0 : argmaxIdx values = 0 := by
      by_contra hne0
      have h0 : 0 < argmaxIdx values := Nat.pos_of_ne_zero hne0
      have hlt := hmaxfirst 0 h0
      rw [hall (argmaxIdx values) hmaxlt] at hlt
      exact lt_irrefl _ hlt
    constructor
    · show hashes.getD (argminIdx values) "" = hashes.getD 0 ""
      rw [hmin0]
    · show hashes.getD (argmaxIdx values) "" = hashes.getD 0 ""
      rw [hmax0]

/-- C8: the engine returns Python None exactly on an empty series, and on a
non-empty series with equally long provenance series the count equals the
input length and every id reported in min, median or max is the id at some
valid index of the provenance series. -/
theorem null_iff_empty_and_provenance_valid (values : List Value)
    (hashes : List String) :
    (stats_with_hash values hashes = .ok none ↔ values = []) ∧
    (values ≠ [] → hashes.length = values.length →
      ∃ r, stats_with_hash values hashes = .ok (some r) ∧
        r.count = values.length ∧
        (∃ i, i < values.length ∧ r.min.2 = hashes.getD i "") ∧
        (∀ h, h ∈ r.median.2 → ∃ i, i < values.length ∧ h = hashes.getD i "") ∧
        (∃ i, i < values.length ∧ r.max.2 = hashes.getD i "")) := by
  constructor
  · constructor
    · intro h
      by_contra hne
      have hE : values.isEmpty = false := by simpa [List.isEmpty_iff] using hne
      rw [stats_with_hash, hE] at h
      simp only [Bool.false_eq_true, if_false] at h
      cases h1 : hashAt hashes (argminIdx values) with
      | error e => rw [h1] at h; simp [Except.bind] at h
      | ok a =>
        rw [h1] at h
        cases h2 : hashesAt hashes (median_with_indices values).2 with
        | error e => rw [h2] at h; simp [Except.bind] at h
        | ok b =>
          rw [h2] at h
          cases h3 : hashAt hashes (argmaxIdx values) with
          | error e => rw [h3] at h; simp [Except.bind, Except.map] at h
          | ok c => rw [h3] at h; simp [Except.bind, Except.map] at h
    · intro h
      subst h
      rfl
  · intro hne hlen
    refine ⟨_, stats_ok values hashes hne hlen.ge, rfl, ?_, ?_, ?_⟩
    · exact ⟨argminIdx values, (argminIdx_spec values hne).1, rfl⟩
    · intro h hmem
      simp only [List.mem_map] at hmem
      obtain ⟨i, hi, rfl⟩ := hmem
      exact ⟨i, median_indices_lt values hne i hi, rfl⟩
    · exact ⟨argmaxIdx values, (argmaxIdx_spec values hne).1, rfl⟩

/-- C9: on every non-empty series with equally long provenance series the
returned statistics satisfy min.value ≤ median.value ≤ max.value. -/
theorem min_le_median_le_max (values : List Value) (hashes : List String)
    (hne : values ≠ []) (hlen : hashes.length = values.length) :
    ∃ r, stats_with_hash values hashes = .ok (some r) ∧
      r.min.1 ≤ r.median.1 ∧ r.median.1 ≤ r.max.1 := by
  obtain ⟨h1, h2⟩ := median_value_between values hne
  exact ⟨_, stats_ok values hashes hne hlen.ge, h1, h2⟩

/-- C10: on every even-length series the two median indices are distinct
valid positions of the input series, the value at the first is at most the
value at the second, and the two reported ids are the ids at these two
distinct positions. -/
theorem even_median_two_distinct_records (values : List Value)
    (hashes : List String) (hne : values ≠ [])
    (hlen : hashes.length = values.length) (heven : values.length % 2 = 0) :
    ∃ r lo hi, stats_with_hash values hashes = .ok (some r) ∧
      (median_with_indices values).2 = [lo, hi] ∧
      lo < values.length ∧ hi < values.length ∧ lo ≠ hi ∧
      values.getD lo 0 ≤ values.getD hi 0 ∧
      r.median.2 = [hashes.getD lo "", hashes.getD hi ""] := by
  obtain ⟨lo, hi, hm, hlo, hhi, hne2, hv⟩ := median_even_parts values hne heven
  refine ⟨_, lo, hi, stats_ok values hashes hne hlen.ge, hm, hlo, hhi, hne2, hv, ?_⟩
  show (median_with_indices values).2.map (fun i => hashes.getD i "") = _
  rw [hm]
  rfl

/-- C6: with well-formed category series (hashes as long as values), the
unified series is the native+internal series followed by the token series,
each element keeping its provenance id; and on native [10] with id "n1" and
token [20] with id "t1" the unified result has count 2, min (10, "n1"),
median (15, ["n1", "t1"]) and max (20, "t1"). -/
theorem unified_concat_and_example :
    (∀ (ethVals : List Value) (ethHashes : List String)
       (tokVals : List Value) (tokHashes : List String),
       ethHashes.length = ethVals.length → tokHashes.length = tokVals.length →
       unifiedSeries ethVals ethHashes tokVals tokHashes =
         (ethVals ++ tokVals, ethHashes ++ tokHashes)) ∧
    unifiedStats [10] ["n1"] [20] ["t1"] =
      .ok (some ⟨2, (10, "n1"), (15, ["n1", "t1"]), (20, "t1")⟩) := by
  constructor
  · intro ev eh tv th he ht
    simp only [unifiedSeries]
    by_cases h1 : ev.isEmpty
    · have e1 : ev = [] := List.isEmpty_iff.mp h1
      have e2 : eh = [] := List.length_eq_zero.mp (by rw [he, e1]; rfl)
      by_cases h2 : tv.isEmpty
      · have e3 : tv = [] := List.isEmpty_iff.mp h2
        have e4 : th = [] := List.length_eq_zero.mp (by rw [ht, e3]; rfl)
        simp [h1, h2, e1, e2, e3, e4]
      · simp [h1, h2, e1, e2]
    · by_cases h2 : tv.isEmpty
      · have e3 : tv = [] := List.isEmpty_iff.mp h2
        have e4 : th = [] := List.length_eq_zero.mp (by rw [ht, e3]; rfl)
        simp [h1, h2, e3, e4]
      · simp [h1, h2]
  · have hu : unifiedSeries [10] ["n1"] [20] ["t1"] = ([10, 20], ["n1", "t1"]) := by
      decide
    simp only [unifiedStats]
    rw [hu]
    show stats_with_hash [10, 20] ["n1", "t1"] = _
    rw [stats_ok [10, 20] ["n1", "t1"] (by decide) (by decide)]
    have hmin : argminIdx [10, 20] = 0 := by decide
    have hmax : argmaxIdx [10, 20] = 1 := by decide
    have hmed : median_with_indices [10, 20] = (15, [0, 1]) := by
      rw [median_even_eq _ (by decide), sortedIndices_eq_stable]
      have hs : stableSortIndices [10, 20] = [0, 1] := by decide
      rw [hs]
      norm_num [List.getD]
    rw [hmin, hmax, hmed]
    norm_num [List.getD]

/-! Witnesses: each applies its claim theorem at a concrete input. -/

/-- Witness for C1 on the series [1, 2] with ids ["a", "b"]. -/
theorem median_follows_stable_sort_witness :
    ([1, 2] : List Value) ≠ [] ∧
    (["a", "b"] : List String).length = ([1, 2] : List Value).length ∧
    ∃ r, stats_with_hash [1, 2] ["a", "b"] = .ok (some r) ∧
      (([1, 2] : List Value).length % 2 = 1 →
        r.median =
          (([1, 2] : List Value).getD
             ((stableSortIndices [1, 2]).getD (([1, 2] : List Value).length / 2) 0) 0,
           [(["a", "b"] : List String).getD
             ((stableSortIndices [1, 2]).getD (([1, 2] : List Value).length / 2) 0) ""])) ∧
      (([1, 2] : List Value).length % 2 = 0 →
        r.median =
          ((([1, 2] : List Value).getD
              ((stableSortIndices [1, 2]).getD (([1, 2] : List Value).length / 2 - 1) 0) 0 +
            ([1, 2] : List Value).getD
              ((stableSortIndices [1, 2]).getD (([1, 2] : List Value).length / 2) 0) 0) / 2,
           [(["a", "b"] : List String).getD
              ((stableSortIndices [1, 2]).getD (([1, 2] : List Value).length / 2 - 1) 0) "",
            (["a", "b"] : List String).getD
              ((stableSortIndices [1, 2]).getD (([1, 2] : List Value).length / 2) 0) ""])) :=
  ⟨by decide, rfl, median_follows_stable_sort [1, 2] ["a", "b"] (by decide) rfl⟩

/-- Witness for C2 on the series [2, 1] with ids ["a", "b"]. -/
theorem min_max_first_occurrence_witness :
    ([2, 1] : List Value) ≠ [] ∧
    (["a", "b"] : List String).length = ([2, 1] : List Value).length ∧
    ∃ r, stats_with_hash [2, 1] ["a", "b"] = .ok (some r) ∧
      (∃ i, i < ([2, 1] : List Value).length ∧
        r.min = (([2, 1] : List Value).getD i 0, (["a", "b"] : List String).getD i "") ∧
        (∀ j, j < ([2, 1] : List Value).length →
          ([2, 1] : List Value).getD i 0 ≤ ([2, 1] : List Value).getD j 0) ∧
        (∀ j, j < i → ([2, 1] : List Value).getD i 0 < ([2, 1] : List Value).getD j 0)) ∧
      (∃ i, i < ([2, 1] : List Value).length ∧
        r.max = (([2, 1] : List Value).getD i 0, (["a", "b"] : List String).getD i "") ∧
        (∀ j, j < ([2, 1] : List Value).length →
          ([2, 1] : List Value).getD j 0 ≤ ([2, 1] : List Value).getD i 0) ∧
        (∀ j, j < i → ([2, 1] : List Value).getD j 0 < ([2, 1] : List Value).getD i 0)) ∧
      ((∀ j, j < ([2, 1] : List Value).length →
          ([2, 1] : List Value).getD j 0 = ([2, 1] : List Value).getD 0 0) →
        r.min.2 = (["a", "b"] : List String).getD 0 "" ∧
        r.max.2 = (["a", "b"] : List String).getD 0 "") :=
  ⟨by decide, rfl, min_max_first_occurrence [2, 1] ["a", "b"] (by decide) rfl⟩

/-- Witness for C3 on a single short page. -/
theorem paged_get_ok_decomp_witness :
    paged_get 2 [(⟨"1", "OK", [5]⟩ : Response Nat)] = .ok [5] 1 ∧
    ∃ pre last rest,
      [(⟨"1", "OK", [5]⟩ : Response Nat)] = pre ++ last :: rest ∧
      1 = pre.length + 1 ∧
      ([5] : List Nat) = (pre.map Response.result).flatten ++ last.result ∧
      (∀ p, p ∈ pre → ¬respFails p ∧ p.result ≠ [] ∧ 2 ≤ p.result.length) ∧
      ¬respFails last ∧
      (last.result = [] ∨ last.result.length < 2) :=
  ⟨by decide, paged_get_ok_decomp 2 [⟨"1", "OK", [5]⟩] [5] 1 (by decide)⟩

/-- Witness for C4 (amended) on a sentinel response with an empty result. -/
theorem paged_get_first_response_witness :
    paged_get 3 [(⟨"0", "No transactions found", []⟩ : Response Nat)] = .ok [] 1 :=
  (paged_get_first_response 3 ⟨"0", "No transactions found", []⟩ []).2 rfl rfl rfl

/-- Witness for C5 (amended): the helper raises on mismatched lengths while
the engine returns a result on a longer provenance series. -/
theorem length_validation_located_witness :
    print_transactions_higher_than [1] 0 [] =
      .error "txs and hashes must have the same length" ∧
    ∃ r, stats_with_hash [1] ["a", "b"] = .ok (some r) :=
  ⟨length_validation_located.1 [1] 0 [] (by decide),
   length_validation_located.2 [1] ["a", "b"] (by decide) (by decide)⟩

/-- Witness for C6: the unified series concatenates concrete categories. -/
theorem unified_concat_and_example_witness :
    unifiedSeries [1] ["a"] [2] ["b"] = ([1, 2], ["a", "b"]) :=
  unified_concat_and_example.1 [1] ["a"] [2] ["b"] rfl rfl

/-- Witness for C7 on a zero-magnitude record. -/
theorem token_normalization_witness :
    normalizeToken ⟨0, "0xdead", "h1"⟩ = none :=
  (token_normalization ⟨0, "0xdead", "h1"⟩).1 rfl

/-- Witness for C8: empty series gives None, and on [1] with id ["a"] the
result is present with valid provenance. -/
theorem null_iff_empty_and_provenance_valid_witness :
    stats_with_hash ([] : List Value) ["x"] = .ok none ∧
    ∃ r, stats_with_hash [1] ["a"] = .ok (some r) ∧
      r.count = ([1] : List Value).length ∧
      (∃ i, i < ([1] : List Value).length ∧
        r.min.2 = (["a"] : List String).getD i "") ∧
      (∀ h, h ∈ r.median.2 → ∃ i, i < ([1] : List Value).length ∧
        h = (["a"] : List String).getD i "") ∧
      (∃ i, i < ([1] : List Value).length ∧
        r.max.2 = (["a"] : List String).getD i "") :=
  ⟨(null_iff_empty_and_provenance_valid [] ["x"]).1.mpr rfl,
   (null_iff_empty_and_provenance_valid [1] ["a"]).2 (by decide) rfl⟩

/-- Witness for C9 on the series [1, 2]. -/
theorem min_le_median_le_max_witness :
    ([1, 2] : List Value) ≠ [] ∧
    ∃ r, stats_with_hash [1, 2] ["a", "b"] = .ok (some r) ∧
      r.min.1 ≤ r.median.1 ∧ r.median.1 ≤ r.max.1 :=
  ⟨by decide, min_le_median_le_max [1, 2] ["a", "b"] (by decide) rfl⟩

/-- Witness for C10 on the all-equal even series [1, 1]: the two median ids
still come from two distinct positions. -/
theorem even_median_two_distinct_records_witness :
    ∃ r lo hi, stats_with_hash [1, 1] ["a", "b"] = .ok (some r) ∧
      (median_with_indices [1, 1]).2 = [lo, hi] ∧
      lo < ([1, 1] : List Value).length ∧ hi < ([1, 1] : List Value).length ∧
      lo ≠ hi ∧
      ([1, 1] : List Value).getD lo 0 ≤ ([1, 1] : List Value).getD hi 0 ∧
      r.median.2 = [(["a", "b"] : List String).getD lo "",
                    (["a", "b"] : List String).getD hi ""] :=
  even_median_two_distinct_records [1, 1] ["a", "b"] (by decide) rfl rfl

end EthStats
